import Mathlib

/-!
Shallow embedding of the Merkle list module
(src/lib/provable-types/merkle-list.ts).

A Merkle list represents a dynamic-length sequence as a single field
element (a hash-chain commitment), while the actual nodes live in an
off-proof record.  We model:

- field elements and list elements by abstract types `F` and `T` with
  decidable equality (the source only uses equality tests and equality
  assertions on them);
- a factory configuration (`MerkleList.create(type, nextHash, emptyHash)`)
  by a `ListConfig` record holding the chaining function, the empty
  sentinel and the canonical empty element of the element type;
- in-circuit equality assertions (`assertEquals`) by returning `Option`:
  an operation returns `none` exactly when one of its assertions is
  unsatisfiable on the concrete state;
- `Provable.if(c, a, b)` by `if c then a else b`;
- the `Unconstrained` off-proof record by an ordinary Lean list (for the
  aliasing claims, a separate explicit-store model appears further down).
-/

set_option linter.unusedSectionVars false

namespace MList

/-- Factory configuration bound by `MerkleList.create`:
the chaining function `_nextHash`, the empty sentinel `_emptyHash`,
and the canonical empty element `innerProvable.empty()`. -/
structure ListConfig (F T : Type) where
  nextHash : F → T → F
  emptyHash : F
  empty : T

/-- Source type `WithHash<T>`: an element paired with the commitment
value that preceded it. -/
structure WithHash (F T : Type) where
  previousHash : F
  element : T
  deriving DecidableEq, Repr

/-- Source type `MerkleListBase<T>`: the current commitment together
with the off-proof record of nodes (front = most recently pushed). -/
structure MerkleListState (F T : Type) where
  hash : F
  data : List (WithHash F T)
  deriving DecidableEq, Repr

/-- Source type `MerkleListIteratorBase<T>`: fixed total hash and data,
plus the movable suffix commitment and the off-proof cursor. -/
structure MerkleListIteratorState (F T : Type) where
  hash : F
  data : List (WithHash F T)
  currentHash : F
  currentIndex : Nat
  deriving DecidableEq, Repr

variable {F T : Type} [DecidableEq F] [DecidableEq T]

/-- Folding the record right-to-left with `nextHash` starting from the
empty sentinel; this is the commitment a record is supposed to have. -/
def chainHash (cfg : ListConfig F T) : List (WithHash F T) → F
  | [] => cfg.emptyHash
  | w :: rest => cfg.nextHash (chainHash cfg rest) w.element

/-- Per-node part of the chain invariant: each stored previousHash is
the fold of the nodes after it. -/
def nodesOk (cfg : ListConfig F T) : List (WithHash F T) → Bool
  | [] => true
  | w :: rest => (decide (w.previousHash = chainHash cfg rest)) && nodesOk cfg rest

/-- The chain invariant of the data model: the record folds back to the
held commitment, and every stored previousHash is the fold of its tail. -/
def Invariant (cfg : ListConfig F T) (s : MerkleListState F T) : Prop :=
  s.hash = chainHash cfg s.data ∧ nodesOk cfg s.data = true

instance (cfg : ListConfig F T) (s : MerkleListState F T) : Decidable (Invariant cfg s) :=
  inferInstanceAs (Decidable (_ ∧ _))

/-- Source `MerkleListT.empty()`: sentinel hash, empty record. -/
def emptyState (cfg : ListConfig F T) : MerkleListState F T :=
  ⟨cfg.emptyHash, []⟩

/-- Source helper `withHashes(data, nextHash, emptyHash)`: builds nodes
right-to-left (the last array element gets the sentinel as its
previousHash) and returns the final cumulative commitment. -/
def withHashes (cfg : ListConfig F T) : List T → List (WithHash F T) × F
  | [] => ([], cfg.emptyHash)
  | v :: vs =>
    let p := withHashes cfg vs
    (⟨p.2, v⟩ :: p.1, cfg.nextHash p.2 v)

/-- Source `MerkleListT.from(array)`. -/
def fromList (cfg : ListConfig F T) (vs : List T) : MerkleListState F T :=
  ⟨(withHashes cfg vs).2, (withHashes cfg vs).1⟩

/-- Source `isEmpty()`: hash equals the sentinel (a circuit Bool). -/
def isEmptyB (cfg : ListConfig F T) (s : MerkleListState F T) : Bool :=
  decide (s.hash = cfg.emptyHash)

/-- Source `push(element)`: chain the hash forward and prepend the node
to the record. -/
def push (cfg : ListConfig F T) (v : T) (s : MerkleListState F T) : MerkleListState F T :=
  ⟨cfg.nextHash s.hash v, ⟨s.hash, v⟩ :: s.data⟩

/-- Source `pushIf(condition, element)`: hash via select, record updated
only when the condition is concretely true. -/
def pushIf (cfg : ListConfig F T) (c : Bool) (v : T) (s : MerkleListState F T) :
    MerkleListState F T :=
  ⟨if c then cfg.nextHash s.hash v else s.hash,
   if c then ⟨s.hash, v⟩ :: s.data else s.data⟩

/-- Source `popWitness()`: the front node of the record, or the dummy
pair of the sentinel and the canonical empty element when the record is
exhausted (the record itself advances to its tail). -/
def popWitness (cfg : ListConfig F T) (s : MerkleListState F T) : WithHash F T :=
  s.data.headD ⟨cfg.emptyHash, cfg.empty⟩

/-- Source `pop()`: witness the front node (or a dummy when the record
is exhausted), assert the witnessed reconstruction against the live
commitment through a select on emptiness, advance the hash, return the
element or the canonical empty value.  Returns `none` when the equality
assertion is unsatisfiable. -/
def pop (cfg : ListConfig F T) (s : MerkleListState F T) :
    Option (T × MerkleListState F T) :=
  if s.hash = (if s.hash = cfg.emptyHash then cfg.emptyHash
      else cfg.nextHash (popWitness cfg s).previousHash (popWitness cfg s).element) then
    some ((if s.hash = cfg.emptyHash then cfg.empty else (popWitness cfg s).element),
          ⟨(if s.hash = cfg.emptyHash then cfg.emptyHash else (popWitness cfg s).previousHash),
           s.data.tail⟩)
  else none

/-- Source `popExn()`: same witnessing and hash update as `pop`, but the
assertion is unconditional. -/
def popExn (cfg : ListConfig F T) (s : MerkleListState F T) :
    Option (T × MerkleListState F T) :=
  if s.hash = cfg.nextHash (popWitness cfg s).previousHash (popWitness cfg s).element then
    some ((popWitness cfg s).element, ⟨(popWitness cfg s).previousHash, s.data.tail⟩)
  else none

/-- Source `popIf(condition)`: perform `pop`, then re-insert the node
`{previousHash: this.hash, element}` at the front of the record when the
condition is concretely false, and select the final hash. -/
def popIf (cfg : ListConfig F T) (c : Bool) (s : MerkleListState F T) :
    Option (T × MerkleListState F T) :=
  match pop cfg s with
  | none => none
  | some (element, s1) =>
    some (element,
          ⟨if c then s1.hash else s.hash,
           if c then s1.data else ⟨s1.hash, element⟩ :: s1.data⟩)

/-- Source `clone()`: same hash, a full copy of the record (copying is
invisible in the pure model; the explicit-store model below captures
the ownership claim). -/
def clone (s : MerkleListState F T) : MerkleListState F T :=
  ⟨s.hash, s.data⟩

/-- Source `MerkleListIterator.startIterating(list)`: same hash and
data, the suffix commitment starts at the full hash, cursor at 0. -/
def startIterating (s : MerkleListState F T) : MerkleListIteratorState F T :=
  ⟨s.hash, s.data, s.hash, 0⟩

/-- Source `isAtEnd()`: suffix commitment equals the sentinel. -/
def isAtEndB (cfg : ListConfig F T) (it : MerkleListIteratorState F T) : Bool :=
  decide (it.currentHash = cfg.emptyHash)

/-- Witness taken by `next()`: `data[currentIndex]`, or the dummy pair
when the cursor is past the end of the record. -/
def nextWitness (cfg : ListConfig F T) (it : MerkleListIteratorState F T) : WithHash F T :=
  it.data.getD it.currentIndex ⟨cfg.emptyHash, cfg.empty⟩

/-- Source `next()`: witness `data[currentIndex]` (or a dummy when the
cursor is past the end), assert the reconstruction against the suffix
commitment through a select on `isAtEnd`, advance the cursor clamped to
the record length, advance the suffix commitment. -/
def next (cfg : ListConfig F T) (it : MerkleListIteratorState F T) :
    Option (T × MerkleListIteratorState F T) :=
  if it.currentHash = (if it.currentHash = cfg.emptyHash then cfg.emptyHash
      else cfg.nextHash (nextWitness cfg it).previousHash (nextWitness cfg it).element) then
    some ((if it.currentHash = cfg.emptyHash then cfg.empty else (nextWitness cfg it).element),
          ⟨it.hash, it.data,
           (if it.currentHash = cfg.emptyHash then cfg.emptyHash
            else (nextWitness cfg it).previousHash),
           min (it.currentIndex + 1) it.data.length⟩)
  else none

/-- Source `MerkleListIterator.createFromList(merkleList)`: the derived
iterator configuration keeps the element type and the chaining function
of the list type but passes no sentinel, so it gets the module default
(`emptyHash = Field(0)` in the source, the parameter `d` here). -/
def createFromList (d : F) (c : ListConfig F T) : ListConfig F T :=
  ⟨c.nextHash, d, c.empty⟩

/-- The list state an iterator simulates: the suffix commitment together
with the not-yet-visited suffix of the record. -/
def toListState (it : MerkleListIteratorState F T) : MerkleListState F T :=
  ⟨it.currentHash, it.data.drop it.currentIndex⟩

/-- Iterated `pop`, collecting the returned values. -/
def popN (cfg : ListConfig F T) : Nat → MerkleListState F T →
    Option (List T × MerkleListState F T)
  | 0, s => some ([], s)
  | k + 1, s =>
    match pop cfg s with
    | none => none
    | some (v, s1) =>
      match popN cfg k s1 with
      | none => none
      | some (vs, s2) => some (v :: vs, s2)

/-- Iterated `next`, collecting the returned values. -/
def nextN (cfg : ListConfig F T) : Nat → MerkleListIteratorState F T →
    Option (List T × MerkleListIteratorState F T)
  | 0, it => some ([], it)
  | k + 1, it =>
    match next cfg it with
    | none => none
    | some (v, it1) =>
      match nextN cfg k it1 with
      | none => none
      | some (vs, it2) => some (v :: vs, it2)

/-- The concrete configuration used for witnesses: an injective-enough
chaining function on naturals, sentinel 0, empty element 0. -/
def cfgN : ListConfig Nat Nat :=
  ⟨fun h x => 2 * h + x + 1, 0, 0⟩

theorem headD_drop {α : Type} (l : List α) (i : Nat) (d : α) :
    (l.drop i).headD d = l.getD i d := by
  induction l generalizing i with
  | nil => cases i <;> rfl
  | cons a t ih =>
    cases i with
    | zero => rfl
    | succ j => simp [List.getD]

theorem tail_drop_succ {α : Type} (l : List α) (i : Nat) :
    (l.drop i).tail = l.drop (i + 1) := by
  induction l generalizing i with
  | nil => cases i <;> rfl
  | cons a t ih =>
    cases i with
    | zero => rfl
    | succ j => exact ih j

theorem drop_min_length {α : Type} (l : List α) (n : Nat) :
    l.drop (min n l.length) = l.drop n := by
  rcases Nat.le_total n l.length with h | h
  · rw [Nat.min_eq_left h]
  · rw [Nat.min_eq_right h, List.drop_eq_nil_of_le h]
    exact List.drop_length l

omit [DecidableEq F] [DecidableEq T] in
theorem popWitness_toListState (cfg : ListConfig F T) (it : MerkleListIteratorState F T) :
    popWitness cfg (toListState it) = nextWitness cfg it := by
  unfold popWitness nextWitness toListState
  exact headD_drop it.data it.currentIndex _

/-- A single `pop` on the list state simulated by an iterator agrees
step by step with `next` on the iterator: same success or failure, same
returned value, and the resulting states simulate again. -/
theorem pop_toListState (cfg : ListConfig F T) (it : MerkleListIteratorState F T) :
    pop cfg (toListState it) =
      Option.map (fun p => (p.1, toListState p.2)) (next cfg it) := by
  have ht : (it.data.drop it.currentIndex).tail = it.data.drop (it.currentIndex + 1) :=
    tail_drop_succ it.data it.currentIndex
  have hm : it.data.drop (min (it.currentIndex + 1) it.data.length) =
      it.data.drop (it.currentIndex + 1) :=
    drop_min_length it.data (it.currentIndex + 1)
  have hh : (toListState it).hash = it.currentHash := rfl
  have hd2 : (toListState it).data = it.data.drop it.currentIndex := rfl
  unfold pop next
  rw [popWitness_toListState, hh, hd2, ht]
  by_cases hc : it.currentHash = (if it.currentHash = cfg.emptyHash then cfg.emptyHash
      else cfg.nextHash (nextWitness cfg it).previousHash (nextWitness cfg it).element)
  · rw [if_pos hc, if_pos hc]
    simp [toListState, hm]
  · rw [if_neg hc, if_neg hc]; rfl

/-- Iterated simulation: popping the simulated list state any number of
times agrees with stepping the iterator the same number of times. -/
theorem popN_toListState (cfg : ListConfig F T) (k : Nat) :
    ∀ it : MerkleListIteratorState F T,
      popN cfg k (toListState it) =
        Option.map (fun p => (p.1, toListState p.2)) (nextN cfg k it) := by
  induction k with
  | zero => intro it; rfl
  | succ k ih =>
    intro it
    show (match pop cfg (toListState it) with
      | none => none
      | some (v, s1) =>
        match popN cfg k s1 with
        | none => none
        | some (vs, s2) => some (v :: vs, s2)) = _
    rw [pop_toListState]
    cases hn : next cfg it with
    | none => simp [nextN, hn]
    | some p =>
      simp only [Option.map_some']
      rw [ih p.2]
      cases hm : nextN cfg k p.2 with
      | none => simp [nextN, hn, hm]
      | some q => simp [nextN, hn, hm]

omit [DecidableEq F] [DecidableEq T] in
theorem toListState_startIterating (s : MerkleListState F T) :
    toListState (startIterating s) = s := by
  cases s
  rfl

/-- Formal shadow of the collision-resistance assumption the data model
rests on: the sentinel is the commitment of the empty sequence only, so
no non-empty record folds back to it. -/
def NoEmptyCollision (cfg : ListConfig F T) : Prop :=
  ∀ l : List (WithHash F T), l ≠ [] → chainHash cfg l ≠ cfg.emptyHash

theorem cfgN_noEmptyCollision : NoEmptyCollision cfgN := by
  intro l hl
  cases l with
  | nil => exact absurd rfl hl
  | cons w rest => simp [chainHash, cfgN]

omit [DecidableEq F] [DecidableEq T] in
theorem chainHash_cons (cfg : ListConfig F T) (w : WithHash F T) (l : List (WithHash F T)) :
    chainHash cfg (w :: l) = cfg.nextHash (chainHash cfg l) w.element := rfl

theorem invariant_nil_iff (cfg : ListConfig F T) (h : F) :
    Invariant cfg ⟨h, []⟩ ↔ h = cfg.emptyHash := by
  simp [Invariant, nodesOk, chainHash]

theorem invariant_cons_iff (cfg : ListConfig F T) (h : F) (w : WithHash F T)
    (rest : List (WithHash F T)) :
    Invariant cfg ⟨h, w :: rest⟩ ↔
      h = cfg.nextHash (chainHash cfg rest) w.element ∧
      w.previousHash = chainHash cfg rest ∧ nodesOk cfg rest = true := by
  simp [Invariant, nodesOk, chainHash, and_assoc]

theorem invariant_emptyState (cfg : ListConfig F T) : Invariant cfg (emptyState cfg) := by
  simp [Invariant, emptyState, nodesOk, chainHash]

theorem withHashes_chain (cfg : ListConfig F T) (vs : List T) :
    (withHashes cfg vs).2 = chainHash cfg (withHashes cfg vs).1 := by
  induction vs with
  | nil => rfl
  | cons v vs ih => simp [withHashes, chainHash, ih]

theorem withHashes_nodesOk (cfg : ListConfig F T) (vs : List T) :
    nodesOk cfg (withHashes cfg vs).1 = true := by
  induction vs with
  | nil => rfl
  | cons v vs ih => simp [withHashes, nodesOk, ih, withHashes_chain]

theorem invariant_fromList (cfg : ListConfig F T) (vs : List T) :
    Invariant cfg (fromList cfg vs) :=
  ⟨withHashes_chain cfg vs, withHashes_nodesOk cfg vs⟩

theorem invariant_push (cfg : ListConfig F T) (v : T) (s : MerkleListState F T)
    (hInv : Invariant cfg s) : Invariant cfg (push cfg v s) := by
  rcases hInv with ⟨hh, hn⟩
  refine (invariant_cons_iff cfg _ _ _).2 ⟨?_, ?_, ?_⟩
  · rw [hh]
  · exact hh
  · exact hn

theorem invariant_pushIf (cfg : ListConfig F T) (c : Bool) (v : T) (s : MerkleListState F T)
    (hInv : Invariant cfg s) : Invariant cfg (pushIf cfg c v s) := by
  cases c with
  | false =>
    cases s
    simpa [pushIf] using hInv
  | true =>
    have := invariant_push cfg v s hInv
    simpa [pushIf, push] using this

theorem pop_emptyState (cfg : ListConfig F T) :
    pop cfg (emptyState cfg) = some (cfg.empty, emptyState cfg) := by
  simp [pop, emptyState, popWitness]

theorem pop_invariant_nil (cfg : ListConfig F T) (h : F)
    (hInv : Invariant cfg ⟨h, []⟩) :
    pop cfg ⟨h, []⟩ = some (cfg.empty, ⟨cfg.emptyHash, []⟩) := by
  have he : h = cfg.emptyHash := (invariant_nil_iff cfg h).1 hInv
  subst he
  simp [pop, popWitness]

theorem pop_invariant_cons (cfg : ListConfig F T) (hcoll : NoEmptyCollision cfg)
    (h : F) (w : WithHash F T) (rest : List (WithHash F T))
    (hInv : Invariant cfg ⟨h, w :: rest⟩) :
    pop cfg ⟨h, w :: rest⟩ = some (w.element, ⟨w.previousHash, rest⟩) := by
  rcases (invariant_cons_iff cfg h w rest).1 hInv with ⟨hh, hw, _⟩
  have hne : cfg.nextHash (chainHash cfg rest) w.element ≠ cfg.emptyHash := by
    rw [← chainHash_cons cfg w rest]
    exact hcoll (w :: rest) (by simp)
  simp [pop, popWitness, hh, hw, hne]

theorem invariant_pop (cfg : ListConfig F T) (hcoll : NoEmptyCollision cfg)
    (s : MerkleListState F T) (o : T × MerkleListState F T)
    (hInv : Invariant cfg s) (hp : pop cfg s = some o) : Invariant cfg o.2 := by
  obtain ⟨h, data⟩ := s
  cases data with
  | nil =>
    rw [pop_invariant_nil cfg h hInv] at hp
    cases hp
    exact (invariant_nil_iff cfg _).2 rfl
  | cons w rest =>
    rw [pop_invariant_cons cfg hcoll h w rest hInv] at hp
    cases hp
    rcases (invariant_cons_iff cfg h w rest).1 hInv with ⟨_, hw, hn⟩
    exact ⟨hw, hn⟩

theorem popExn_invariant_cons (cfg : ListConfig F T) (h : F) (w : WithHash F T)
    (rest : List (WithHash F T)) (hInv : Invariant cfg ⟨h, w :: rest⟩) :
    popExn cfg ⟨h, w :: rest⟩ = some (w.element, ⟨w.previousHash, rest⟩) := by
  rcases (invariant_cons_iff cfg h w rest).1 hInv with ⟨hh, hw, _⟩
  simp [popExn, popWitness, hh, hw]

theorem popExn_invariant_nil (cfg : ListConfig F T) (hcoll : NoEmptyCollision cfg)
    (h : F) (hInv : Invariant cfg ⟨h, []⟩) : popExn cfg ⟨h, []⟩ = none := by
  have he : h = cfg.emptyHash := (invariant_nil_iff cfg h).1 hInv
  subst he
  have : cfg.nextHash cfg.emptyHash cfg.empty ≠ cfg.emptyHash := by
    have := hcoll [⟨cfg.emptyHash, cfg.empty⟩] (by simp)
    simpa [chainHash] using this
  simp [popExn, popWitness]
  intro hc
  exact absurd hc.symm this

theorem invariant_popExn (cfg : ListConfig F T) (s : MerkleListState F T)
    (o : T × MerkleListState F T) (hInv : Invariant cfg s)
    (hp : popExn cfg s = some o) : Invariant cfg o.2 := by
  obtain ⟨h, data⟩ := s
  cases data with
  | nil =>
    unfold popExn popWitness at hp
    by_cases hc : h = cfg.nextHash cfg.emptyHash cfg.empty
    · simp [hc] at hp
      subst hp
      exact (invariant_nil_iff cfg _).2 rfl
    · simp [hc] at hp
  | cons w rest =>
    rcases (invariant_cons_iff cfg h w rest).1 hInv with ⟨_, hw, hn⟩
    unfold popExn popWitness at hp
    by_cases hc : h = cfg.nextHash w.previousHash w.element
    · simp [hc] at hp
      subst hp
      exact ⟨hw, hn⟩
    · simp [hc] at hp

theorem popIf_true (cfg : ListConfig F T) (s : MerkleListState F T) :
    popIf cfg true s = pop cfg s := by
  cases hp : pop cfg s with
  | none => simp [popIf, hp]
  | some p => simp [popIf, hp]

theorem popIf_false_restore (cfg : ListConfig F T) (s : MerkleListState F T)
    (hne : s.hash ≠ cfg.emptyHash) (hd : s.data ≠ []) :
    popIf cfg false s = (pop cfg s).map (fun p => (p.1, s)) := by
  obtain ⟨h, data⟩ := s
  cases data with
  | nil => exact absurd rfl hd
  | cons w rest =>
    have hne2 : ¬ h = cfg.emptyHash := hne
    by_cases hc : h = cfg.nextHash w.previousHash w.element
    · unfold popIf pop popWitness
      simp only [List.headD_cons, List.tail_cons, if_neg hne2, if_pos hc]
      rfl
    · unfold popIf pop popWitness
      simp only [List.headD_cons, List.tail_cons, if_neg hne2, if_neg hc]
      rfl

theorem popIf_false_hash (cfg : ListConfig F T) (s : MerkleListState F T) :
    (popIf cfg false s).map (fun p => (p.1, p.2.hash)) =
      (pop cfg s).map (fun p => (p.1, s.hash)) := by
  cases hp : pop cfg s with
  | none => simp [popIf, hp]
  | some p => simp [popIf, hp]

/-- A configuration with a custom (nonzero) empty sentinel. -/
def cfg5 : ListConfig Nat Nat :=
  ⟨fun h x => 2 * h + x + 1, 5, 0⟩

/-!
Explicit-store model of the off-proof records, for the ownership and
aliasing properties.  An `Unconstrained` array is identified by the
index at which its current contents sit in a store; `updateAsProver` and
`set` mutate the store at the instance's reference, `Unconstrained.witness`
(used by `clone`) allocates a fresh reference, and
`startIterating(list)` passes the very same `Unconstrained` object to
the iterator, hence the same reference.
-/

/-- A store of `Unconstrained` arrays; a reference is an index. -/
abbrev Store (F T : Type) := List (List (WithHash F T))

/-- A list instance in the store model: commitment plus the reference
to its off-proof record. -/
structure HMerkleList (F : Type) where
  hash : F
  dataRef : Nat
  deriving DecidableEq, Repr

/-- An iterator instance in the store model. -/
structure HIterator (F : Type) where
  hash : F
  dataRef : Nat
  currentHash : F
  currentIndex : Nat
  deriving DecidableEq, Repr

/-- Contents of the record an instance references. -/
def readData (σ : Store F T) (r : Nat) : List (WithHash F T) :=
  σ.getD r []

/-- Source `clone()`: `Unconstrained.witness(() => [...this.data.get()])`
allocates a fresh reference holding a copy of the current contents. -/
def hclone (σ : Store F T) (L : HMerkleList F) : Store F T × HMerkleList F :=
  (σ ++ [readData σ L.dataRef], ⟨L.hash, σ.length⟩)

/-- Source `push(element)` in the store model: `updateAsProver` mutates
the record at the instance's own reference. -/
def hpush (cfg : ListConfig F T) (σ : Store F T) (L : HMerkleList F) (v : T) :
    Store F T × HMerkleList F :=
  (σ.set L.dataRef (⟨L.hash, v⟩ :: readData σ L.dataRef),
   ⟨cfg.nextHash L.hash v, L.dataRef⟩)

/-- Witness taken by `popWitness()` in the store model. -/
def hpopWitness (cfg : ListConfig F T) (σ : Store F T) (L : HMerkleList F) : WithHash F T :=
  (readData σ L.dataRef).headD ⟨cfg.emptyHash, cfg.empty⟩

/-- Source `pop()` in the store model: `popWitness` sets the record at
the instance's reference to its tail, then the usual select-guarded
assertion and hash update run. -/
def hpop (cfg : ListConfig F T) (σ : Store F T) (L : HMerkleList F) :
    Option (Store F T × T × HMerkleList F) :=
  if L.hash = (if L.hash = cfg.emptyHash then cfg.emptyHash
      else cfg.nextHash (hpopWitness cfg σ L).previousHash (hpopWitness cfg σ L).element) then
    some (σ.set L.dataRef (readData σ L.dataRef).tail,
          (if L.hash = cfg.emptyHash then cfg.empty else (hpopWitness cfg σ L).element),
          ⟨if L.hash = cfg.emptyHash then cfg.emptyHash
            else (hpopWitness cfg σ L).previousHash, L.dataRef⟩)
  else none

/-- Source `MerkleList.startIterating()` in the store model: the
destructured `{data, hash}` passes the same `Unconstrained` object on,
so list and iterator hold the same reference. -/
def hstartIterating (L : HMerkleList F) : HIterator F :=
  ⟨L.hash, L.dataRef, L.hash, 0⟩

theorem getD_set_ne {α : Type} (l : List α) (r i : Nat) (x d : α) (h : i ≠ r) :
    (l.set r x).getD i d = l.getD i d := by
  induction l generalizing r i with
  | nil => cases r <;> rfl
  | cons a t ih =>
    cases r with
    | zero =>
      cases i with
      | zero => exact absurd rfl h
      | succ j => rfl
    | succ r =>
      cases i with
      | zero => rfl
      | succ j =>
        simp only [List.set, List.getD]
        exact ih r j (fun hj => h (by rw [hj]))

theorem getD_append_lt {α : Type} (l l2 : List α) (i : Nat) (d : α) (h : i < l.length) :
    (l ++ l2).getD i d = l.getD i d := by
  induction l generalizing i with
  | nil => exact absurd h (Nat.not_lt_zero i)
  | cons a t ih =>
    cases i with
    | zero => rfl
    | succ j => exact ih j (Nat.lt_of_succ_lt_succ h)

theorem getD_append_length {α : Type} (l : List α) (x d : α) :
    (l ++ [x]).getD l.length d = x := by
  induction l with
  | nil => rfl
  | cons a t ih => exact ih

/-!
Claim theorems.
-/

/-- C1, counterexample: the claim says `from([v0..v(n-1)])` followed by
n pops returns `v(n-1), ..., v0`.  On the concrete input `[3, 1, 4]`
the three pops return `[3, 1, 4]` (the array order), not `[4, 1, 3]`:
`withHashes` chains right-to-left, so the FIRST array element is the
top of the stack. -/
theorem fromList_pop_order_cex :
    (popN cfgN 3 (fromList cfgN [3, 1, 4])).map Prod.fst = some [3, 1, 4] ∧
    (popN cfgN 3 (fromList cfgN [3, 1, 4])).map Prod.fst ≠ some [4, 1, 3] := by
  constructor
  · decide
  · decide

/-- C1 (amended): for every configuration whose chaining function never
collides a non-empty record onto the sentinel, `from([v0..v(n-1)])`
followed by n pops returns `v0, v1, ..., v(n-1)` in that order (the
first array element is popped first), and the final commitment equals
the empty sentinel with an exhausted record. -/
theorem fromList_popN_roundTrip (cfg : ListConfig F T) (hcoll : NoEmptyCollision cfg)
    (vs : List T) :
    popN cfg vs.length (fromList cfg vs) = some (vs, emptyState cfg) := by
  induction vs with
  | nil => rfl
  | cons v vs ih =>
    have hpop1 : pop cfg (fromList cfg (v :: vs)) = some (v, fromList cfg vs) := by
      have h2 := pop_invariant_cons cfg hcoll (withHashes cfg (v :: vs)).2
        ⟨(withHashes cfg vs).2, v⟩ (withHashes cfg vs).1
        (invariant_fromList cfg (v :: vs))
      exact h2
    rw [List.length_cons]
    simp only [popN, hpop1, ih]

theorem fromList_popN_roundTrip_witness :
    popN cfgN 3 (fromList cfgN [3, 1, 4]) = some ([3, 1, 4], emptyState cfgN) :=
  fromList_popN_roundTrip cfgN cfgN_noEmptyCollision [3, 1, 4]

/-- C2: with a single-field element type, `nextHash(h, x) = H(h, x)`
(the domain prefix folded into `H`) and sentinel 0, `from([3, 1, 4])`
chains right-to-left: the last array element 4 gets previousHash 0, and
the commitment is `H(H(H(0,4),1),3)`; the three pops then return 3, 1
and 4, leaving commitments `H(H(0,4),1)`, `H(0,4)` and 0.  The three
hypotheses say the intermediate commitments are distinguishable from
the sentinel, the formal shadow of collision resistance. -/
theorem fromList_concrete_scenario (H : Nat → Nat → Nat)
    (hc4 : H 0 4 ≠ 0) (hc1 : H (H 0 4) 1 ≠ 0) (hc0 : H (H (H 0 4) 1) 3 ≠ 0) :
    fromList ⟨H, 0, 0⟩ [3, 1, 4] =
      ⟨H (H (H 0 4) 1) 3, [⟨H (H 0 4) 1, 3⟩, ⟨H 0 4, 1⟩, ⟨0, 4⟩]⟩ ∧
    pop ⟨H, 0, 0⟩ ⟨H (H (H 0 4) 1) 3, [⟨H (H 0 4) 1, 3⟩, ⟨H 0 4, 1⟩, ⟨0, 4⟩]⟩ =
      some (3, ⟨H (H 0 4) 1, [⟨H 0 4, 1⟩, ⟨0, 4⟩]⟩) ∧
    pop ⟨H, 0, 0⟩ ⟨H (H 0 4) 1, [⟨H 0 4, 1⟩, ⟨0, 4⟩]⟩ = some (1, ⟨H 0 4, [⟨0, 4⟩]⟩) ∧
    pop ⟨H, 0, 0⟩ ⟨H 0 4, [⟨0, 4⟩]⟩ = some (4, ⟨0, []⟩) := by
  refine ⟨rfl, ?_, ?_, ?_⟩
  · simp [pop, popWitness, hc0]
  · simp [pop, popWitness, hc1]
  · simp [pop, popWitness, hc4]

theorem fromList_concrete_scenario_witness :
    fromList ⟨fun h x => 2 * h + x + 1, 0, 0⟩ [3, 1, 4] =
      ⟨28, [⟨12, 3⟩, ⟨5, 1⟩, ⟨0, 4⟩]⟩ ∧
    pop ⟨fun h x => 2 * h + x + 1, 0, 0⟩ ⟨28, [⟨12, 3⟩, ⟨5, 1⟩, ⟨0, 4⟩]⟩ =
      some (3, ⟨12, [⟨5, 1⟩, ⟨0, 4⟩]⟩) ∧
    pop ⟨fun h x => 2 * h + x + 1, 0, 0⟩ ⟨12, [⟨5, 1⟩, ⟨0, 4⟩]⟩ =
      some (1, ⟨5, [⟨0, 4⟩]⟩) ∧
    pop ⟨fun h x => 2 * h + x + 1, 0, 0⟩ ⟨5, [⟨0, 4⟩]⟩ = some (4, ⟨0, []⟩) :=
  fromList_concrete_scenario (fun h x => 2 * h + x + 1)
    (by decide) (by decide) (by decide)

/-- C5: popping the empty list succeeds without any failing assertion,
returns the canonical empty element and leaves the commitment at the
sentinel; and on any list satisfying the chain invariant (under the
no-collision assumption), `popExn` fails exactly when the list is empty
in the sense of `isEmpty`, that is, when its hash is the sentinel. -/
theorem empty_pop_safe_popExn_fails (cfg : ListConfig F T) (hcoll : NoEmptyCollision cfg)
    (s : MerkleListState F T) (hInv : Invariant cfg s) :
    pop cfg (emptyState cfg) = some (cfg.empty, emptyState cfg) ∧
    (popExn cfg s = none ↔ s.hash = cfg.emptyHash) := by
  refine ⟨pop_emptyState cfg, ?_, ?_⟩
  · intro hnone
    by_contra hne
    obtain ⟨h, data⟩ := s
    cases data with
    | nil => exact hne ((invariant_nil_iff cfg h).1 hInv)
    | cons w rest =>
      rw [popExn_invariant_cons cfg h w rest hInv] at hnone
      cases hnone
  · intro he
    obtain ⟨h, data⟩ := s
    cases data with
    | nil => exact popExn_invariant_nil cfg hcoll h hInv
    | cons w rest =>
      exfalso
      have hh : h = chainHash cfg (w :: rest) := hInv.1
      exact hcoll (w :: rest) (by simp) (by rw [← hh]; exact he)

theorem empty_pop_safe_popExn_fails_witness :
    pop cfgN (emptyState cfgN) = some (cfgN.empty, emptyState cfgN) ∧
    (popExn cfgN (emptyState cfgN) = none ↔ (emptyState cfgN).hash = cfgN.emptyHash) :=
  empty_pop_safe_popExn_fails cfgN cfgN_noEmptyCollision (emptyState cfgN)
    (invariant_emptyState cfgN)

/-- C7: on any list satisfying the chain invariant (under the
no-collision assumption), pushing a value and then popping returns that
value and restores both the commitment and the record exactly. -/
theorem push_pop_inverse (cfg : ListConfig F T) (hcoll : NoEmptyCollision cfg)
    (s : MerkleListState F T) (v : T) (hInv : Invariant cfg s) :
    pop cfg (push cfg v s) = some (v, s) := by
  obtain ⟨h, data⟩ := s
  exact pop_invariant_cons cfg hcoll (cfg.nextHash h v) ⟨h, v⟩ data
    (invariant_push cfg v ⟨h, data⟩ hInv)

theorem push_pop_inverse_witness :
    pop cfgN (push cfgN 9 ⟨2, [⟨0, 1⟩]⟩) = some (9, ⟨2, [⟨0, 1⟩]⟩) :=
  push_pop_inverse cfgN cfgN_noEmptyCollision ⟨2, [⟨0, 1⟩]⟩ 9 (by decide)

theorem createFromList_of_default (d : F) (c : ListConfig F T) (hd : c.emptyHash = d) :
    createFromList d c = c := by
  cases hd
  cases c
  rfl

/-- C3, counterexample: the source's `MerkleList.startIterating()`
derives the iterator type via `createFromList`, which drops a custom
empty sentinel and uses the module default instead.  For the empty list
of a custom-sentinel type (sentinel 5, satisfying the chain invariant),
one `pop` on a clone succeeds and returns the dummy element, while one
`next` on the derived iterator asserts 5 against the default-sentinel
reconstruction and fails — so the value sequences differ and the
universal iterator/pop equivalence is false of the program. -/
theorem iterator_pop_equivalence_cex :
    Invariant cfg5 (emptyState cfg5) ∧
    (popN cfg5 1 (clone (emptyState cfg5))).map Prod.fst = some [0] ∧
    (nextN (createFromList 0 cfg5) 1 (startIterating (emptyState cfg5))).map Prod.fst =
      none ∧
    (popN cfg5 1 (clone (emptyState cfg5))).map Prod.fst ≠
      (nextN (createFromList 0 cfg5) 1 (startIterating (emptyState cfg5))).map Prod.fst :=
  ⟨by decide, by decide, by decide, by decide⟩

/-- C3 (amended): for a list type whose empty sentinel is the module
default — so the iterator type that `startIterating()` derives via
`createFromList` has the same configuration — and any list whose data
chains to its hash, iterating the derived iterator with repeated `next`
yields the same value sequence, in the same order, as repeated `pop` on
an independent clone of the list: for every number k of steps the two
runs agree (same failures, same values), so the iterator visits the
record front to back and the most recently pushed element is visited
first.  With a custom sentinel the equivalence can fail (see the
counterexample). -/
theorem iterator_pop_equivalence (d : F) (cfg : ListConfig F T)
    (s : MerkleListState F T) (k : Nat) (hd : cfg.emptyHash = d)
    (hInv : Invariant cfg s) :
    (popN cfg k (clone s)).map Prod.fst =
      (nextN (createFromList d cfg) k (startIterating s)).map Prod.fst := by
  rw [createFromList_of_default d cfg hd]
  have hcl : clone s = s := by cases s; rfl
  have h1 := popN_toListState cfg k (startIterating s)
  rw [toListState_startIterating s] at h1
  rw [hcl, h1]
  cases nextN cfg k (startIterating s) with
  | none => rfl
  | some p => rfl

theorem iterator_pop_equivalence_witness :
    (popN cfgN 4 (clone (fromList cfgN [3, 1, 4]))).map Prod.fst =
      (nextN (createFromList 0 cfgN) 4 (startIterating (fromList cfgN [3, 1, 4]))).map
        Prod.fst :=
  iterator_pop_equivalence 0 cfgN (fromList cfgN [3, 1, 4]) 4 rfl
    (invariant_fromList cfgN [3, 1, 4])

/-- C4, counterexample: the chain invariant holds on the empty list,
but `popIf(false)` on the empty list re-inserts the dummy node
witnessed by the inner `pop`, leaving a state whose record no longer
folds back to its commitment — the invariant is NOT preserved by
`popIf` with a false condition on a sentinel-commitment list. -/
theorem popIf_false_invariant_cex :
    Invariant cfgN (emptyState cfgN) ∧
    popIf cfgN false (emptyState cfgN) = some (0, ⟨0, [⟨0, 0⟩]⟩) ∧
    ¬ Invariant cfgN ⟨0, [⟨0, 0⟩]⟩ := by
  refine ⟨by decide, by decide, by decide⟩

/-- C4 (amended): under the no-collision assumption, the chain
invariant holds for `empty()` and `from(array)`, and is preserved by
`push`, `pushIf` (either condition), `clone`, by `pop`, `popExn` and
`popIf(true)` whenever they succeed, and by `popIf(false)` whenever the
commitment differs from the sentinel; on a sentinel-commitment list
`popIf(false)` can break it (see the counterexample). -/
theorem invariant_preservation (cfg : ListConfig F T) (hcoll : NoEmptyCollision cfg)
    (vs : List T) (v : T) (c : Bool)
    (s1 s2 s3 s4 s5 : MerkleListState F T)
    (o2 o3 o4 o5 : T × MerkleListState F T)
    (h1 : Invariant cfg s1)
    (h2 : Invariant cfg s2) (hp2 : pop cfg s2 = some o2)
    (h3 : Invariant cfg s3) (hp3 : popExn cfg s3 = some o3)
    (h4 : Invariant cfg s4) (hp4 : popIf cfg true s4 = some o4)
    (h5 : Invariant cfg s5) (hne5 : s5.hash ≠ cfg.emptyHash)
    (hp5 : popIf cfg false s5 = some o5) :
    Invariant cfg (emptyState cfg) ∧
    Invariant cfg (fromList cfg vs) ∧
    Invariant cfg (push cfg v s1) ∧
    Invariant cfg (pushIf cfg c v s1) ∧
    Invariant cfg (clone s1) ∧
    Invariant cfg o2.2 ∧
    Invariant cfg o3.2 ∧
    Invariant cfg o4.2 ∧
    Invariant cfg o5.2 := by
  refine ⟨invariant_emptyState cfg, invariant_fromList cfg vs,
    invariant_push cfg v s1 h1, invariant_pushIf cfg c v s1 h1, ?_, ?_, ?_, ?_, ?_⟩
  · have hcl : clone s1 = s1 := by cases s1; rfl
    rw [hcl]; exact h1
  · exact invariant_pop cfg hcoll s2 o2 h2 hp2
  · exact invariant_popExn cfg s3 o3 h3 hp3
  · rw [popIf_true cfg s4] at hp4
    exact invariant_pop cfg hcoll s4 o4 h4 hp4
  · have hd5 : s5.data ≠ [] := by
      intro hnil
      obtain ⟨h, data⟩ := s5
      cases hnil
      exact hne5 ((invariant_nil_iff cfg h).1 h5)
    rw [popIf_false_restore cfg s5 hne5 hd5] at hp5
    cases hp : pop cfg s5 with
    | none => rw [hp] at hp5; cases hp5
    | some p =>
      rw [hp] at hp5
      simp only [Option.map_some'] at hp5
      cases hp5
      exact h5

theorem invariant_preservation_witness :
    Invariant cfgN (emptyState cfgN) ∧
    Invariant cfgN (fromList cfgN [7]) ∧
    Invariant cfgN (push cfgN 9 ⟨8, [⟨2, 3⟩, ⟨0, 1⟩]⟩) ∧
    Invariant cfgN (pushIf cfgN true 9 ⟨8, [⟨2, 3⟩, ⟨0, 1⟩]⟩) ∧
    Invariant cfgN (clone ⟨8, [⟨2, 3⟩, ⟨0, 1⟩]⟩) ∧
    Invariant cfgN (⟨2, [⟨0, 1⟩]⟩ : MerkleListState Nat Nat) ∧
    Invariant cfgN (⟨2, [⟨0, 1⟩]⟩ : MerkleListState Nat Nat) ∧
    Invariant cfgN (⟨2, [⟨0, 1⟩]⟩ : MerkleListState Nat Nat) ∧
    Invariant cfgN (⟨8, [⟨2, 3⟩, ⟨0, 1⟩]⟩ : MerkleListState Nat Nat) :=
  invariant_preservation cfgN cfgN_noEmptyCollision [7] 9 true
    ⟨8, [⟨2, 3⟩, ⟨0, 1⟩]⟩ ⟨8, [⟨2, 3⟩, ⟨0, 1⟩]⟩ ⟨8, [⟨2, 3⟩, ⟨0, 1⟩]⟩
    ⟨8, [⟨2, 3⟩, ⟨0, 1⟩]⟩ ⟨8, [⟨2, 3⟩, ⟨0, 1⟩]⟩
    (3, ⟨2, [⟨0, 1⟩]⟩) (3, ⟨2, [⟨0, 1⟩]⟩) (3, ⟨2, [⟨0, 1⟩]⟩)
    (3, ⟨8, [⟨2, 3⟩, ⟨0, 1⟩]⟩)
    (by decide) (by decide) (by decide) (by decide) (by decide)
    (by decide) (by decide) (by decide) (by decide) (by decide)

/-- C6, counterexample: the claim says `popIf(false)` leaves commitment
and record unchanged on every list state.  On the empty list the inner
`pop` witnesses the dummy node and `popIf(false)` re-inserts it, so the
record changes from `[]` to a one-dummy-node record. -/
theorem popIf_false_record_cex :
    popIf cfgN false (emptyState cfgN) = some (0, ⟨0, [⟨0, 0⟩]⟩) ∧
    (⟨0, [⟨0, 0⟩]⟩ : MerkleListState Nat Nat) ≠ emptyState cfgN := by
  refine ⟨by decide, by decide⟩

/-- C6 (amended): `pushIf(false, v)` leaves the state unchanged and
`pushIf(true, v)` equals `push(v)`; `popIf(true)` equals `pop`;
`popIf(false)` always restores the commitment and returns the same
value as `pop`; and on a list whose commitment differs from the
sentinel and whose record is non-empty, `popIf(false)` restores the
whole state exactly.  On the empty list `popIf(false)` restores the
commitment but appends a dummy node to the record (last conjunct). -/
theorem conditional_ops (cfg : ListConfig F T) (s t : MerkleListState F T) (v : T)
    (hne : t.hash ≠ cfg.emptyHash) (hd : t.data ≠ []) :
    pushIf cfg false v s = s ∧
    pushIf cfg true v s = push cfg v s ∧
    popIf cfg true s = pop cfg s ∧
    (popIf cfg false s).map (fun p => (p.1, p.2.hash)) =
      (pop cfg s).map (fun p => (p.1, s.hash)) ∧
    popIf cfg false t = (pop cfg t).map (fun p => (p.1, t)) ∧
    popIf cfg false (emptyState cfg) =
      some (cfg.empty, ⟨cfg.emptyHash, [⟨cfg.emptyHash, cfg.empty⟩]⟩) := by
  refine ⟨?_, rfl, popIf_true cfg s, popIf_false_hash cfg s,
    popIf_false_restore cfg t hne hd, ?_⟩
  · cases s; rfl
  · simp [popIf, pop, popWitness, emptyState]

theorem conditional_ops_witness :
    pushIf cfgN false 9 ⟨2, [⟨0, 1⟩]⟩ = ⟨2, [⟨0, 1⟩]⟩ ∧
    pushIf cfgN true 9 ⟨2, [⟨0, 1⟩]⟩ = push cfgN 9 ⟨2, [⟨0, 1⟩]⟩ ∧
    popIf cfgN true ⟨2, [⟨0, 1⟩]⟩ = pop cfgN ⟨2, [⟨0, 1⟩]⟩ ∧
    (popIf cfgN false ⟨2, [⟨0, 1⟩]⟩).map (fun p => (p.1, p.2.hash)) =
      (pop cfgN ⟨2, [⟨0, 1⟩]⟩).map (fun p => (p.1, (⟨2, [⟨0, 1⟩]⟩ : MerkleListState Nat Nat).hash)) ∧
    popIf cfgN false ⟨8, [⟨2, 3⟩, ⟨0, 1⟩]⟩ =
      (pop cfgN ⟨8, [⟨2, 3⟩, ⟨0, 1⟩]⟩).map
        (fun p => (p.1, (⟨8, [⟨2, 3⟩, ⟨0, 1⟩]⟩ : MerkleListState Nat Nat))) ∧
    popIf cfgN false (emptyState cfgN) =
      some (cfgN.empty, ⟨cfgN.emptyHash, [⟨cfgN.emptyHash, cfgN.empty⟩]⟩) :=
  conditional_ops cfgN ⟨2, [⟨0, 1⟩]⟩ ⟨8, [⟨2, 3⟩, ⟨0, 1⟩]⟩ 9 (by decide) (by decide)

/-- C8, counterexample: `createFromList` passes the element type and
the chaining function of the list type to `create`, but not its empty
sentinel, so a list type with a custom sentinel (here 5) gets an
iterator type with the module default sentinel 0: on the empty list of
that type, `isEmpty()` is true while the derived iterator's
`isAtEnd()` is false. -/
theorem createFromList_sentinel_cex :
    (createFromList 0 cfg5).nextHash = cfg5.nextHash ∧
    (createFromList 0 cfg5).empty = cfg5.empty ∧
    (createFromList 0 cfg5).emptyHash ≠ cfg5.emptyHash ∧
    isEmptyB cfg5 (emptyState cfg5) = true ∧
    isAtEndB (createFromList 0 cfg5) (startIterating (emptyState cfg5)) = false :=
  ⟨rfl, rfl, by decide, by decide, by decide⟩

/-- C8 (amended): the iterator type derived from a list type keeps the
identical element encoding and chaining function but receives the
module default empty sentinel; when the list type uses the default
sentinel the two configurations coincide, and then `isEmpty` on the
list agrees with `isAtEnd` on the freshly started iterator and one
`pop` is step-for-step hash-compatible with one `next`. -/
theorem createFromList_compat (d : F) (c : ListConfig F T) (s : MerkleListState F T)
    (hd : c.emptyHash = d) :
    createFromList d c = c ∧
    isEmptyB c s = isAtEndB (createFromList d c) (startIterating s) ∧
    pop c s = (next (createFromList d c) (startIterating s)).map
      (fun p => (p.1, toListState p.2)) := by
  have hcfg : createFromList d c = c := by
    cases hd
    cases c
    rfl
  refine ⟨hcfg, ?_, ?_⟩
  · rw [hcfg]
    rfl
  · rw [hcfg]
    have h1 := pop_toListState c (startIterating s)
    rw [toListState_startIterating s] at h1
    exact h1

theorem createFromList_compat_witness :
    createFromList 0 cfgN = cfgN ∧
    isEmptyB cfgN (fromList cfgN [3]) =
      isAtEndB (createFromList 0 cfgN) (startIterating (fromList cfgN [3])) ∧
    pop cfgN (fromList cfgN [3]) =
      (next (createFromList 0 cfgN) (startIterating (fromList cfgN [3]))).map
        (fun p => (p.1, toListState p.2)) :=
  createFromList_compat 0 cfgN (fromList cfgN [3]) rfl

/-- C10: on any iterator whose suffix commitment equals the sentinel
(`isAtEnd` true), `next` succeeds — its assertion reduces to an
equality of the sentinel with itself — returns the canonical empty
element, keeps the suffix commitment at the sentinel and moves the
cursor to `min (currentIndex + 1) data.length`; when the cursor already
sits at `data.length` the whole state is unchanged, so any number k of
further calls succeeds and returns k empty elements. -/
theorem next_at_end_safe (cfg : ListConfig F T) (it jt : MerkleListIteratorState F T)
    (k : Nat) (h1 : it.currentHash = cfg.emptyHash)
    (h2 : jt.currentHash = cfg.emptyHash) (h3 : jt.currentIndex = jt.data.length) :
    next cfg it = some (cfg.empty,
      ⟨it.hash, it.data, cfg.emptyHash, min (it.currentIndex + 1) it.data.length⟩) ∧
    nextN cfg k jt = some (List.replicate k cfg.empty, jt) := by
  have step : ∀ ht : MerkleListIteratorState F T, ht.currentHash = cfg.emptyHash →
      next cfg ht = some (cfg.empty,
        ⟨ht.hash, ht.data, cfg.emptyHash, min (ht.currentIndex + 1) ht.data.length⟩) := by
    intro ht hh
    simp [next, hh]
  refine ⟨step it h1, ?_⟩
  have hstep : next cfg jt = some (cfg.empty, jt) := by
    obtain ⟨ha, hb, hc0, hd0⟩ := jt
    subst h2
    have h3b : hd0 = hb.length := h3
    subst h3b
    rw [step ⟨ha, hb, cfg.emptyHash, hb.length⟩ rfl]
    rw [Nat.min_eq_right (Nat.le_succ hb.length)]
  induction k with
  | zero => rfl
  | succ k ih => simp only [nextN, hstep, ih, List.replicate_succ]

theorem next_at_end_safe_witness :
    next cfgN ⟨8, [⟨0, 7⟩], 0, 1⟩ = some (0, ⟨8, [⟨0, 7⟩], 0, 1⟩) ∧
    nextN cfgN 3 ⟨8, [⟨0, 7⟩], 0, 1⟩ = some ([0, 0, 0], ⟨8, [⟨0, 7⟩], 0, 1⟩) :=
  next_at_end_safe cfgN ⟨8, [⟨0, 7⟩], 0, 1⟩ ⟨8, [⟨0, 7⟩], 0, 1⟩ 3 rfl rfl rfl

/-- C9, counterexample: `startIterating` passes the list's own
`Unconstrained` data object to the iterator, so both hold the SAME
reference; popping the list then mutates the record the iterator reads.
Concretely: the singleton list at reference 0 is shared with its
iterator, one `pop` on the list empties the record at that reference,
and the iterator's record has changed. -/
theorem startIterating_aliasing_cex :
    (hstartIterating (⟨8, 0⟩ : HMerkleList Nat)).dataRef = (⟨8, 0⟩ : HMerkleList Nat).dataRef ∧
    hpop cfgN ([[⟨0, 7⟩]] : Store Nat Nat) ⟨8, 0⟩ = some ([[]], 7, ⟨0, 0⟩) ∧
    readData ([[]] : Store Nat Nat) (hstartIterating (⟨8, 0⟩ : HMerkleList Nat)).dataRef ≠
      readData ([[⟨0, 7⟩]] : Store Nat Nat) (hstartIterating (⟨8, 0⟩ : HMerkleList Nat)).dataRef :=
  ⟨rfl, by decide, by decide⟩

/-- C9 (amended): `clone()` allocates a fresh reference holding a full
copy of the record, so clone and source never alias: mutating the clone
(by `push` or `pop`) leaves the record at the source's reference
untouched and mutating the source leaves the clone's record untouched.
`startIterating`, by contrast, hands the iterator the very same
reference as the list (last conjunct), so list mutations do reach the
iterator's record (see the counterexample). -/
theorem clone_isolation (cfg : ListConfig F T) (σ : Store F T) (L : HMerkleList F)
    (v w : T) (h : L.dataRef < σ.length) :
    (hclone σ L).2.dataRef ≠ L.dataRef ∧
    readData (hclone σ L).1 (hclone σ L).2.dataRef = readData σ L.dataRef ∧
    readData (hclone σ L).1 L.dataRef = readData σ L.dataRef ∧
    readData (hpush cfg (hclone σ L).1 (hclone σ L).2 v).1 L.dataRef =
      readData σ L.dataRef ∧
    readData (hpush cfg (hclone σ L).1 L w).1 (hclone σ L).2.dataRef =
      readData (hclone σ L).1 (hclone σ L).2.dataRef ∧
    (hpop cfg (hclone σ L).1 (hclone σ L).2).map (fun t => readData t.1 L.dataRef) =
      (hpop cfg (hclone σ L).1 (hclone σ L).2).map (fun _ => readData σ L.dataRef) ∧
    (hstartIterating L).dataRef = L.dataRef := by
  have hneq : L.dataRef ≠ σ.length := Nat.ne_of_lt h
  have hb : readData (hclone σ L).1 (hclone σ L).2.dataRef = readData σ L.dataRef := by
    show (σ ++ [readData σ L.dataRef]).getD σ.length [] = readData σ L.dataRef
    exact getD_append_length σ _ []
  have hc : readData (hclone σ L).1 L.dataRef = readData σ L.dataRef := by
    show (σ ++ [readData σ L.dataRef]).getD L.dataRef [] = σ.getD L.dataRef []
    exact getD_append_lt σ _ L.dataRef [] h
  refine ⟨Ne.symm hneq, hb, hc, ?_, ?_, ?_, rfl⟩
  · show (((hclone σ L).1).set σ.length _).getD L.dataRef [] = readData σ L.dataRef
    rw [getD_set_ne _ σ.length L.dataRef _ _ hneq]
    exact hc
  · show (((hclone σ L).1).set L.dataRef _).getD σ.length [] =
      readData (hclone σ L).1 σ.length
    rw [getD_set_ne _ L.dataRef σ.length _ _ (Ne.symm hneq)]
    rfl
  · have hset : ∀ y : List (WithHash F T),
        readData (((hclone σ L).1).set σ.length y) L.dataRef = readData σ L.dataRef := by
      intro y
      show (((hclone σ L).1).set σ.length y).getD L.dataRef [] = σ.getD L.dataRef []
      rw [getD_set_ne _ σ.length L.dataRef _ _ hneq]
      exact getD_append_lt σ _ L.dataRef [] h
    have href : (hclone σ L).2.dataRef = σ.length := rfl
    unfold hpop
    split
    · simp only [Option.map_some']
      rw [href, hset]
    · split
      · simp only [Option.map_some']
        rw [href, hset]
      · rfl

theorem clone_isolation_witness :
    (hclone [[⟨0, 7⟩]] (⟨8, 0⟩ : HMerkleList Nat)).2.dataRef ≠
      (⟨8, 0⟩ : HMerkleList Nat).dataRef ∧
    readData (hclone [[⟨0, 7⟩]] (⟨8, 0⟩ : HMerkleList Nat)).1
        (hclone [[⟨0, 7⟩]] (⟨8, 0⟩ : HMerkleList Nat)).2.dataRef =
      readData [[⟨0, 7⟩]] (⟨8, 0⟩ : HMerkleList Nat).dataRef ∧
    readData (hclone [[⟨0, 7⟩]] (⟨8, 0⟩ : HMerkleList Nat)).1
        (⟨8, 0⟩ : HMerkleList Nat).dataRef =
      readData [[⟨0, 7⟩]] (⟨8, 0⟩ : HMerkleList Nat).dataRef ∧
    readData (hpush cfgN (hclone [[⟨0, 7⟩]] (⟨8, 0⟩ : HMerkleList Nat)).1
        (hclone [[⟨0, 7⟩]] (⟨8, 0⟩ : HMerkleList Nat)).2 3).1
        (⟨8, 0⟩ : HMerkleList Nat).dataRef =
      readData [[⟨0, 7⟩]] (⟨8, 0⟩ : HMerkleList Nat).dataRef ∧
    readData (hpush cfgN (hclone [[⟨0, 7⟩]] (⟨8, 0⟩ : HMerkleList Nat)).1 ⟨8, 0⟩ 4).1
        (hclone [[⟨0, 7⟩]] (⟨8, 0⟩ : HMerkleList Nat)).2.dataRef =
      readData (hclone [[⟨0, 7⟩]] (⟨8, 0⟩ : HMerkleList Nat)).1
        (hclone [[⟨0, 7⟩]] (⟨8, 0⟩ : HMerkleList Nat)).2.dataRef ∧
    (hpop cfgN (hclone [[⟨0, 7⟩]] (⟨8, 0⟩ : HMerkleList Nat)).1
        (hclone [[⟨0, 7⟩]] (⟨8, 0⟩ : HMerkleList Nat)).2).map
        (fun t => readData t.1 (⟨8, 0⟩ : HMerkleList Nat).dataRef) =
      (hpop cfgN (hclone [[⟨0, 7⟩]] (⟨8, 0⟩ : HMerkleList Nat)).1
        (hclone [[⟨0, 7⟩]] (⟨8, 0⟩ : HMerkleList Nat)).2).map
        (fun _ => readData [[⟨0, 7⟩]] (⟨8, 0⟩ : HMerkleList Nat).dataRef) ∧
    (hstartIterating (⟨8, 0⟩ : HMerkleList Nat)).dataRef =
      (⟨8, 0⟩ : HMerkleList Nat).dataRef :=
  clone_isolation cfgN [[⟨0, 7⟩]] ⟨8, 0⟩ 3 4 (by decide)

end MList
